import Mathlib

/-!
Verification of the `augr` sync-folder store and time-input parser.

The Rust source under `src/core/src/store/sync_folder_store.rs` and
`src/cli/src/time_input.rs` is embedded shallowly below: the filesystem is
explicit state (association lists from paths to file contents), fallible
operations return `Except`, and Rust `std::path` operations (`join`,
`with_extension`) are modelled on component lists with the semantics of the
Rust standard library.
-/

namespace Augr

/-! ### Paths

A path is its list of components, relative to the filesystem root.
`pathJoin` models `PathBuf::join` with a single plain component (the only way
it is used in the source).
-/

abbrev Path := List String

def pathJoin (p : Path) (c : String) : Path := p ++ [c]

/-- Split a character list at its last `'.'`: returns the characters before
and after that dot, or `none` if there is no dot.  Helper for the model of
Rust `Path::with_extension`. -/
def splitLastDot : List Char → Option (List Char × List Char)
  | [] => none
  | c :: rest =>
    match splitLastDot rest with
    | some (b, a) => some (c :: b, a)
    | none => if c = '.' then some ([], rest) else none

/-- Rust `Path::file_stem` on a single file name: the portion before the last
`'.'`, except that a name whose only dot is leading (a hidden file) is its own
stem. -/
def stemOf (s : String) : String :=
  match splitLastDot s.toList with
  | none => s
  | some (b, _) => if b.isEmpty then s else String.mk b

/-- Rust `Path::with_extension ext` applied to the last component of a path:
the last component is replaced by its stem followed by `"." ++ ext`. -/
def withExtension (p : Path) (ext : String) : Path :=
  match p with
  | [] => []
  | [c] => [stemOf c ++ "." ++ ext]
  | c :: rest => c :: withExtension (rest : Path) ext

/-! ### Data model

`Meta` and `Patch` live in repository modules that are not present under
`src/` (`store/meta.rs`, `store/patch.rs`); they are modelled from the spec.
-/

/-- Modelled from the spec: `store/meta.rs` is missing from the sources.
§3: "Meta — per-device mutable record: `{ device_id: DeviceId, known_patches:
set of PatchRef }`"; §6 gives the serialized fields `device_id: string`,
`known_patches: ordered_or_set of string`. -/
structure Meta where
  device_id : String
  known_patches : List String
deriving DecidableEq, Repr

/-- Modelled from the spec: `Meta::new()` (used by `get_meta` when no file
exists) returns "an empty Meta" (§4.1). -/
def Meta.new : Meta := ⟨"", []⟩

/-- Modelled from the spec: `store/patch.rs` is missing from the sources.
§3: "`Operation` is a closed variant set: `AddEvent{start, tags}`,
`SetEventStart{event_ref, start}`, `AddTags{event_ref, tags}`".  Timestamps
are modelled as naturals. -/
inductive Operation where
  | addEvent (start : Nat) (tags : List String)
  | setEventStart (event_ref : String) (start : Nat)
  | addTags (event_ref : String) (tags : List String)
deriving DecidableEq, Repr

/-- Modelled from the spec: §3 "Patch — immutable value: `{ patch_ref:
PatchRef, device_id: DeviceId, created_at: Timestamp, operation: Operation }`".
`PatchRef` is a string (§6: patch files are named by it). -/
structure Patch where
  patch_ref : String
  device_id : String
  created_at : Nat
  operation : Operation
deriving DecidableEq, Repr

/-! ### Filesystem model

Meta files and patch files live in disjoint subtrees, so they are kept in two
association lists.  Meta file contents are raw character lists, so that the
byte-level behaviour of `save_meta` (which opens with write+create but does
not truncate) is visible.  Patch file contents are modelled at the level of
the TOML codec: a patch file either holds the serialization of some `Patch`
value or bytes that fail to deserialize. -/

/-- Content of a patch file, quotiented by the TOML codec: `patchToml p` is
the canonical serialization of `p`; `garbled s` is any byte string that does
not deserialize as a `Patch`. -/
inductive PatchContent where
  | patchToml (p : Patch)
  | garbled (s : String)
deriving DecidableEq, Repr

/-- `toml::de::from_str` for patch files, on `PatchContent`. -/
def dePatchContent : PatchContent → Option Patch
  | .patchToml p => some p
  | .garbled _ => none

structure FS where
  metaFiles : List (Path × List Char)
  patchFiles : List (Path × PatchContent)
deriving DecidableEq, Repr

def FS.lookupMeta (fs : FS) (p : Path) : Option (List Char) :=
  (fs.metaFiles.find? (fun e => e.1 = p)).map Prod.snd

def FS.lookupPatch (fs : FS) (p : Path) : Option PatchContent :=
  (fs.patchFiles.find? (fun e => e.1 = p)).map Prod.snd

def FS.setMeta (fs : FS) (p : Path) (c : List Char) : FS :=
  { fs with metaFiles := (p, c) :: fs.metaFiles.filter (fun e => ¬ e.1 = p) }

/-! ### TOML codec for `Meta`

`toml::ser::to_vec` of a record `{ device_id, known_patches }` produces
`device_id = "<id>"\nknown_patches = [<quoted refs>]\n`; the deserializer
below accepts exactly that canonical form (device ids and refs are taken
dot-quote-newline-free, as they are in the program). -/

def quoteStr (s : String) : List Char := '"' :: s.toList ++ ['"']

def serRefList : List String → List Char
  | [] => []
  | [x] => quoteStr x
  | x :: xs => quoteStr x ++ [',', ' '] ++ serRefList xs

/-- Canonical TOML serialization of a `Meta` value (`toml::ser::to_vec`). -/
def serMeta (m : Meta) : List Char :=
  "device_id = ".toList ++ quoteStr m.device_id
    ++ ['\n'] ++ "known_patches = [".toList ++ serRefList m.known_patches
    ++ [']', '\n']

/-- Expect the literal `lit` at the head of `cs` and return the remainder. -/
def expectLit : List Char → List Char → Option (List Char)
  | [], cs => some cs
  | _ :: _, [] => none
  | l :: ls, c :: cs => if c = l then expectLit ls cs else none

/-- Read characters up to an unescaped closing quote; fails on a newline or
end of input. -/
def takeQuoted : List Char → Option (List Char × List Char)
  | [] => none
  | c :: rest =>
    if c = '"' then some ([], rest)
    else if c = '\n' then none
    else (takeQuoted rest).map (fun r => (c :: r.1, r.2))

/-- Parse the comma-separated quoted items of a TOML string array, after the
opening bracket; fuel bounds the recursion. -/
def parseRefItems : Nat → List Char → Option (List String × List Char)
  | 0, _ => none
  | _ + 1, ']' :: rest => some ([], rest)
  | fuel + 1, '"' :: rest => do
    let (item, r1) ← takeQuoted rest
    match r1 with
    | ']' :: r2 => some ([String.mk item], r2)
    | ',' :: ' ' :: r2 => do
      let (items, r3) ← parseRefItems fuel r2
      match items with
      | [] => none
      | _ => some (String.mk item :: items, r3)
    | _ => none
  | _, _ => none

/-- `toml::de::from_str` for meta files: accepts exactly the canonical
serialized form of a `Meta`. -/
def deMeta (cs : List Char) : Option Meta := do
  let r1 ← expectLit "device_id = \"".toList cs
  let (id, r2) ← takeQuoted r1
  let r3 ← expectLit "\nknown_patches = [".toList r2
  let (refs, r4) ← parseRefItems (r3.length + 1) r3
  let r5 ← expectLit "\n".toList r4
  match r5 with
  | [] => some ⟨String.mk id, refs⟩
  | _ => none

/-! ### The store (`sync_folder_store.rs`) -/

/-- `SyncFolderStoreError` (lines 18–49).  The `source` payloads (the
underlying `std::io::Error` / TOML error) are abstracted away; each variant
keeps the context it carries. -/
inductive SyncFolderStoreError where
  | deserializeMeta (device_id : String)
  | serializeMeta (device_id : String)
  | deserializePatch (patch_ref : String)
  | readFile (path : Path)
  | writeFile (path : Path)
deriving DecidableEq, Repr

/-- The path context carried by an error variant, if any. -/
def SyncFolderStoreError.pathOf : SyncFolderStoreError → Option Path
  | .readFile p => some p
  | .writeFile p => some p
  | _ => none

/-- The device-id / patch-ref context carried by an error variant, if any. -/
def SyncFolderStoreError.identOf : SyncFolderStoreError → Option String
  | .deserializeMeta d => some d
  | .serializeMeta d => some d
  | .deserializePatch r => some r
  | _ => none

structure SyncFolderStore where
  init : Bool
  root_folder : Path
  patch_folder : Path
  device_id : String
deriving DecidableEq, Repr

/-- `SyncFolderStore::new` (lines 52–59). -/
def SyncFolderStore.new (root_folder : Path) (device_id : String) :
    SyncFolderStore :=
  { init := false
    device_id := device_id
    patch_folder := pathJoin root_folder "patches"
    root_folder := root_folder }

/-- `SyncFolderStore::should_init` (lines 61–64): sets `init` to `true`;
the parameter is bound but unused in the source. -/
def SyncFolderStore.should_init (s : SyncFolderStore) (_should_init : Bool) :
    SyncFolderStore :=
  { s with init := true }

/-- `meta_file_path` (lines 66–72):
`root_folder.join("meta").join(device_id).with_extension("toml")`. -/
def SyncFolderStore.meta_file_path (s : SyncFolderStore) : Path :=
  withExtension (pathJoin (pathJoin s.root_folder "meta") s.device_id) "toml"

/-- The patch-file path built identically by `get_patch` (lines 120–123) and
`add_patch` (line 136): `patch_folder.join(ref).with_extension("toml")`. -/
def SyncFolderStore.patchPath (s : SyncFolderStore) (patch_ref : String) :
    Path :=
  withExtension (pathJoin s.patch_folder patch_ref) "toml"

/-- `get_meta` (lines 77–92): if the meta file does not exist, return
`Meta::new()`; otherwise read and deserialize it, failing with
`DeserializeMeta { device_id }` on a TOML error. -/
def get_meta (s : SyncFolderStore) (fs : FS) :
    Except SyncFolderStoreError Meta :=
  let path := s.meta_file_path
  match fs.lookupMeta path with
  | none => .ok Meta.new
  | some contents =>
    match deMeta contents with
    | some m => .ok m
    | none => .error (.deserializeMeta s.device_id)

/-- The byte effect of `save_meta`'s write (lines 107–114): the file is
opened with `write(true).create(true)` — no truncate — so the new contents
overwrite the old in place and any remaining tail of the old contents
survives. -/
def overwriteNoTruncate (new old : List Char) : List Char :=
  new ++ old.drop new.length

/-- `save_meta` (lines 94–117): serialize the meta, ensure the parent
directory exists, and write it to `meta_file_path` without truncating. -/
def save_meta (s : SyncFolderStore) (fs : FS) (m : Meta) :
    Except SyncFolderStoreError FS :=
  let contents := serMeta m
  let path := s.meta_file_path
  match fs.lookupMeta path with
  | none => .ok (fs.setMeta path contents)
  | some old => .ok (fs.setMeta path (overwriteNoTruncate contents old))

/-- `get_patch` (lines 119–132): read `<patch_folder>/<ref>.toml` (error
`ReadFile` if absent) and deserialize it (error `DeserializePatch` on a TOML
error).  The deserialized patch is returned as-is; nothing compares its
`patch_ref` field with the requested ref. -/
def get_patch (s : SyncFolderStore) (fs : FS) (patch_ref : String) :
    Except SyncFolderStoreError Patch :=
  let path := s.patchPath patch_ref
  match fs.lookupPatch path with
  | none => .error (.readFile path)
  | some contents =>
    match dePatchContent contents with
    | some p => .ok p
    | none => .error (.deserializePatch patch_ref)

/-- `add_patch` (lines 134–158): serialize the patch and write it to
`<patch_folder>/<ref>.toml` with `write(true).create_new(true)`, which fails
with an `AlreadyExists` I/O error — surfaced as `WriteFile { path }` — when
the file is already present, regardless of its contents. -/
def add_patch (s : SyncFolderStore) (fs : FS) (patch : Patch) :
    Except SyncFolderStoreError FS :=
  let path := s.patchPath patch.patch_ref
  match fs.lookupPatch path with
  | some _ => .error (.writeFile path)
  | none =>
    .ok { fs with patchFiles := (path, .patchToml patch) :: fs.patchFiles }

/-! ### `time_input.rs`

The chrono format machinery is embedded at the character level, following
`chrono::format::parse` for `Numeric`/`Literal` items:
- before a numeric item the input is `trim_left`-ed of Unicode whitespace;
- a numeric item with `Pad::None` scans at least one and at most `width`
  digits, where `width` is 2 for month/day/hour/minute/second and 4 for an
  unsigned year; a year may instead begin with `'-'`/`'+'` followed by an
  unbounded digit run, and `Parsed::set_year` rejects values outside `i32`;
- the field setters perform no month/day range validation — that happens only
  at resolution: `to_datetime`/`to_naive_time` return an error for an
  impossible date or time (chrono accepts second 60 as a leap second), while
  `tz.ymd`, used by `parse_date`, panics outside chrono's supported calendar
  (years −262144..=262143, month 1–12, existing day of month);
- a literal item matches exactly its character, with no trimming, and the
  whole input must be consumed.
A single time zone is modelled, so time-zone conversions are the identity. -/

namespace TimeInput

structure DT where
  year : Int
  month : Nat
  day : Nat
  hour : Nat
  minute : Nat
  second : Nat
deriving DecidableEq, Repr

/-- The `Context` trait: the current moment (`now`), in the single modelled
time zone. -/
structure TimeCtx where
  now : DT
deriving DecidableEq, Repr

/-- Rust `char::is_whitespace`: the Unicode `White_Space` property. -/
def isRustWhitespace (c : Char) : Bool :=
  let n := c.toNat
  (9 ≤ n && n ≤ 13) || n = 32 || n = 0x85 || n = 0xA0 || n = 0x1680
    || (0x2000 ≤ n && n ≤ 0x200A) || n = 0x2028 || n = 0x2029
    || n = 0x202F || n = 0x205F || n = 0x3000

/-- `str::trim_left`, applied by chrono before each numeric item. -/
def trimLeft (cs : List Char) : List Char := cs.dropWhile isRustWhitespace

def natOfDigits (ds : List Char) : Nat :=
  ds.foldl (fun n c => 10 * n + (c.toNat - 48)) 0

/-- chrono `scan::number(s, 1, max)`: consume at least one and at most `max`
leading ASCII digits; further digits are left for the following items. -/
def scanNumber (max : Nat) (cs : List Char) : Option (Nat × List Char) :=
  let ds := (cs.take max).takeWhile (fun c => c.isDigit)
  match ds with
  | [] => none
  | _ => some (natOfDigits ds, cs.drop ds.length)

/-- An unsigned `Numeric` item of maximum width `width` (with chrono's
`trim_left` first). -/
def numUnsignedP (width : Nat) (cs : List Char) : Option (Nat × List Char) :=
  scanNumber width (trimLeft cs)

/-- The `Year` numeric item: after `trim_left`, either a sign followed by an
unbounded digit run (rejected by `Parsed::set_year` when outside `i32`), or
at most four digits. -/
def numYearP (cs : List Char) : Option (Int × List Char) :=
  match trimLeft cs with
  | '-' :: rest =>
    match scanNumber rest.length rest with
    | some (v, r) =>
      if v ≤ 2147483648 then some (-(v : Int), r) else none
    | none => none
  | '+' :: rest =>
    match scanNumber rest.length rest with
    | some (v, r) =>
      if v ≤ 2147483647 then some ((v : Int), r) else none
    | none => none
  | cs2 => (scanNumber 4 cs2).map (fun vr => ((vr.1 : Int), vr.2))

/-- A `Literal` format item: one expected character, no trimming. -/
def litP (l : Char) : List Char → Option (List Char)
  | [] => none
  | c :: rest => if c = l then some rest else none

/-- `fmts::FULL_DATE` (`%Y-%m-%d`, no padding), consuming the whole input.
No month/day range check happens here: the `Parsed` setters only convert to
`u32`. -/
def fullDateP (cs : List Char) : Option (Int × Nat × Nat) := do
  let (y, r1) ← numYearP cs
  let r2 ← litP '-' r1
  let (m, r3) ← numUnsignedP 2 r2
  let r4 ← litP '-' r3
  let (d, r5) ← numUnsignedP 2 r4
  match r5 with
  | [] => some (y, m, d)
  | _ => none

/-- `fmts::PARTIAL_DATE` (`--%m-%d`, no padding), consuming the whole
input. -/
def partialDateP (cs : List Char) : Option (Nat × Nat) := do
  let r1 ← litP '-' cs
  let r2 ← litP '-' r1
  let (m, r3) ← numUnsignedP 2 r2
  let r4 ← litP '-' r3
  let (d, r5) ← numUnsignedP 2 r4
  match r5 with
  | [] => some (m, d)
  | _ => none

/-- `fmts::HOUR_AND_MINUTE` (`%H:%M`, no padding), consuming the whole
input; the hour/minute range is enforced at resolution, not here. -/
def hourMinuteP (cs : List Char) : Option (Nat × Nat) := do
  let (h, r1) ← numUnsignedP 2 cs
  let r2 ← litP ':' r1
  let (mi, r3) ← numUnsignedP 2 r2
  match r3 with
  | [] => some (h, mi)
  | _ => none

/-- The datetime format `"%Y-%m-%dT%H:%M:%S"`, consuming the whole input. -/
def datetimeP (cs : List Char) : Option DT := do
  let (y, r1) ← numYearP cs
  let r2 ← litP '-' r1
  let (m, r3) ← numUnsignedP 2 r2
  let r4 ← litP '-' r3
  let (d, r5) ← numUnsignedP 2 r4
  let r6 ← litP 'T' r5
  let (h, r7) ← numUnsignedP 2 r6
  let r8 ← litP ':' r7
  let (mi, r9) ← numUnsignedP 2 r8
  let r10 ← litP ':' r9
  let (s, r11) ← numUnsignedP 2 r10
  match r11 with
  | [] => some ⟨y, m, d, h, mi, s⟩
  | _ => none

def isLeapYear (y : Int) : Bool :=
  y % 4 = 0 && (y % 100 ≠ 0 || y % 400 = 0)

def daysInMonth (y : Int) (m : Nat) : Nat :=
  match m with
  | 1 => 31 | 3 => 31 | 5 => 31 | 7 => 31 | 8 => 31 | 10 => 31 | 12 => 31
  | 4 => 30 | 6 => 30 | 9 => 30 | 11 => 30
  | 2 => if isLeapYear y then 29 else 28
  | _ => 0

/-- Whether `(y, m, d)` is a date chrono's `from_ymd_opt` accepts: year in
chrono's supported range `MIN_YEAR..=MAX_YEAR` (`i32::MIN >> 13` to
`i32::MAX >> 13`), a real month and an existing day. -/
def ymdValid (y : Int) (m d : Nat) : Bool :=
  -262144 ≤ y && y ≤ 262143 && 1 ≤ m && m ≤ 12 && 1 ≤ d
    && d ≤ daysInMonth y m

/-- `parse_datetime` (lines 39–42): `tz.datetime_from_str(text,
"%Y-%m-%dT%H:%M:%S")`.  Resolution (`to_datetime`) returns an error — not a
panic — on an impossible date or time; chrono accepts second 60 as a leap
second. -/
def parse_datetime (text : String) : Option DT :=
  match datetimeP text.toList with
  | some dt =>
    if ymdValid dt.year dt.month dt.day
        && dt.hour ≤ 23 && dt.minute ≤ 59 && dt.second ≤ 60
    then some dt else none
  | none => none

structure DateV where
  year : Int
  month : Nat
  day : Nat
deriving DecidableEq, Repr

/-- Outcome of `parse_date`: `tz.ymd` panics (rather than returning `Err`)
when the format-parsed year/month/day is not a supported calendar date. -/
inductive DateResult where
  | ok (d : DateV)
  | fail
  | panics
deriving DecidableEq, Repr

/-- `parse_date` (lines 44–66): try `FULL_DATE`, then `PARTIAL_DATE` with the
current year from `c.now()`; a successful format parse is resolved with
`tz.ymd`, which panics on an unsupported date (e.g. month 13, day 30 of
February, or a year outside chrono's range). -/
def parse_date (c : TimeCtx) (text : String) : DateResult :=
  match fullDateP text.toList with
  | some (y, m, d) => if ymdValid y m d then .ok ⟨y, m, d⟩ else .panics
  | none =>
    match partialDateP text.toList with
    | some (m, d) =>
      let y := c.now.year
      if ymdValid y m d then .ok ⟨y, m, d⟩ else .panics
    | none => .fail

structure TimeV where
  hour : Nat
  minute : Nat
  second : Nat
deriving DecidableEq, Repr

/-- `Parsed::to_naive_time` after `set_second(0)`: the hour and minute must
be in range (the seconds are zero, so no leap-second case arises). -/
def toNaiveTime (h mi : Nat) : Option TimeV :=
  if h ≤ 23 && mi ≤ 59 then some ⟨h, mi, 0⟩ else none

/-- `parse_time` (lines 68–77): parse `HOUR_AND_MINUTE`, force the seconds to
zero with `set_second(0)`, and resolve with `to_naive_time` (an error there
is mapped to failure). -/
def parse_time (text : String) : Option TimeV :=
  match hourMinuteP text.toList with
  | some (h, mi) => toNaiveTime h mi
  | none => none

/-- Result of `parse`: a value, `Err(())`, or a chrono panic escaping the
function. -/
inductive POut where
  | ok (dt : DT)
  | err
  | panics
deriving DecidableEq, Repr

/-- `parse` (lines 26–37): attempt the full datetime format, then a date at
midnight, then an hour:minute time on today's date from `c.now()`, and
return `Err(())` when all three fail. -/
def parse (c : TimeCtx) (text : String) : POut :=
  match parse_datetime text with
  | some dt => .ok dt
  | none =>
    match parse_date c text with
    | .ok d => .ok ⟨d.year, d.month, d.day, 0, 0, 0⟩
    | .panics => .panics
    | .fail =>
      match parse_time text with
      | some t =>
        .ok ⟨c.now.year, c.now.month, c.now.day, t.hour, t.minute, t.second⟩
      | none => .err

end TimeInput

/-! ### EventGraph / flatten

`timesheet.rs` and `repository/timesheet.rs` are not among the sources; the
flatten algorithm is modelled from §4.4 of the spec.  To make the reduction a
function of the patch *set*, the patch list is first brought into a canonical
order (patches are linearly ordered by their content). -/

def opEncode : Operation → Nat ×ₗ (String ×ₗ (Nat ×ₗ List String))
  | .addEvent s tags => toLex (0, toLex ("", toLex (s, tags)))
  | .setEventStart er s => toLex (1, toLex (er, toLex (s, [])))
  | .addTags er tags => toLex (2, toLex (er, toLex (0, tags)))

def encodePatch (p : Patch) :
    String ×ₗ (String ×ₗ (Nat ×ₗ (Nat ×ₗ (String ×ₗ (Nat ×ₗ List String))))) :=
  toLex (p.patch_ref, toLex (p.device_id, toLex (p.created_at,
    opEncode p.operation)))

def patchLe (a b : Patch) : Prop := encodePatch a ≤ encodePatch b

instance : DecidableRel patchLe := fun a b => by
  unfold patchLe; infer_instance

instance : IsTotal Patch patchLe := ⟨fun _ _ => le_total _ _⟩

instance : IsTrans Patch patchLe :=
  ⟨fun _ _ _ h1 h2 => le_trans (a := encodePatch _) h1 h2⟩

instance : IsAntisymm Patch patchLe :=
  ⟨fun a b h1 h2 => by
    have he : encodePatch a = encodePatch b := le_antisymm h1 h2
    cases a with
    | mk r1 d1 t1 o1 =>
      cases b with
      | mk r2 d2 t2 o2 =>
        simp only [encodePatch, toLex_inj, Prod.mk.injEq] at he
        obtain ⟨e1, e2, e3, e4⟩ := he
        have ho : o1 = o2 := by
          cases o1 <;> cases o2 <;>
            simp only [opEncode, toLex_inj, Prod.mk.injEq] at e4 <;> simp_all
        simp_all⟩

/-- Modelled from the spec: §3 "Event — derived, not stored directly:
`{ event_ref, start, end, tags }`". -/
structure Event where
  event_ref : String
  start : Nat
  endTime : Option Nat
  tags : List String
deriving DecidableEq, Repr

/-- Modelled from the spec: §3 "Conflict — value describing an irreconcilable
pair/group of patches … Carries enough identity (competing patch refs)". -/
structure Conflict where
  event_ref : String
  patch_refs : List String
deriving DecidableEq, Repr

def eventLe (a b : Event) : Prop :=
  toLex (a.start, a.event_ref) ≤ toLex (b.start, b.event_ref)

instance : DecidableRel eventLe := fun a b => by
  unfold eventLe; infer_instance

/-- Modelled from the spec: §4.4, applied to a canonically ordered patch
list.  Creation patches (`AddEvent`) establish an event whose reference is
the creating patch's ref; edits are anchored to their `event_ref`.  Two or
more concurrent `SetEventStart` edits of one event (no causal link is
available between them) are a conflict, as is an edit that references a
never-created event (§4.4 failure semantics).  Non-conflicting operations are
folded into `Event` values, ordered by `start` with `event_ref` as
tie-break; any conflict makes the whole reduction report the conflict
list. -/
def flattenSorted (ps : List Patch) : Except (List Conflict) (List Event) :=
  let creations := ps.filterMap (fun p =>
    match p.operation with
    | .addEvent s tags => some (p.patch_ref, s, tags)
    | _ => none)
  let createdRefs := creations.map (fun c => c.1)
  let targetOf : Patch → Option String := fun p =>
    match p.operation with
    | .setEventStart er _ => some er
    | .addTags er _ => some er
    | .addEvent _ _ => none
  let dangling : List Conflict := ps.filterMap (fun p =>
    match targetOf p with
    | some er => if er ∈ createdRefs then none else some ⟨er, [p.patch_ref]⟩
    | none => none)
  let startEdits := fun er => ps.filterMap (fun p =>
    match p.operation with
    | .setEventStart er2 s2 => if er2 = er then some (p.patch_ref, s2) else none
    | _ => none)
  let groupConflicts : List Conflict := creations.filterMap (fun c =>
    match startEdits c.1 with
    | [] => none
    | [_] => none
    | es => some ⟨c.1, es.map Prod.fst⟩)
  let conflicts := dangling ++ groupConflicts
  match conflicts with
  | _ :: _ => .error conflicts
  | [] =>
    let events := creations.map (fun c =>
      let extra := (ps.filterMap (fun p =>
        match p.operation with
        | .addTags er2 tags2 => if er2 = c.1 then some tags2 else none
        | _ => none)).flatten
      let start := match startEdits c.1 with
        | [(_, s2)] => s2
        | _ => c.2.1
      Event.mk c.1 start none ((c.2.2 ++ extra).dedup))
    .ok (List.insertionSort eventLe events)

/-- `flatten` over an in-memory patch collection: canonicalize the arrival
order, then reduce. -/
def flatten (ps : List Patch) : Except (List Conflict) (List Event) :=
  flattenSorted (List.insertionSort patchLe ps)

/-! ### Concrete sample objects, shared by the theorems below. -/

def demoStore : SyncFolderStore := SyncFolderStore.new ["root"] "dev"

def demoPatch : Patch := ⟨"r1", "devA", 10, .addEvent 100 ["work"]⟩

/-- A patch value with the same shape but different content (and a different
content hash) than `demoPatch`. -/
def tamperedPatch : Patch := ⟨"r3", "devB", 12, .setEventStart "r1" 90⟩

def emptyFS : FS := ⟨[], []⟩

/-- The filesystem after `demoPatch` has been stored. -/
def fsWithDemo : FS := ⟨[], [(demoStore.patchPath "r1", .patchToml demoPatch)]⟩

/-- The patches folder holding, under `demoPatch`'s file name, a body that
deserializes to a different patch: a tampered patch file. -/
def fsTampered : FS :=
  ⟨[], [(demoStore.patchPath "r1", .patchToml tamperedPatch)]⟩

def bigMeta : Meta := ⟨"dev", ["aaaaaaaaaaaaaaaaaaaaaaaaaaaaaaaa"]⟩

def smallMeta : Meta := ⟨"dev", []⟩

/-- A filesystem whose meta file for `demoStore` is longer than the
serialization of `smallMeta`. -/
def fsOldMeta : FS := ⟨[(demoStore.meta_file_path, serMeta bigMeta)], []⟩

def ctx2019 : TimeInput.TimeCtx := ⟨⟨2019, 7, 16, 19, 25, 0⟩⟩

/-! ### Helper lemmas -/

theorem splitLastDot_of_no_dot {cs : List Char} (h : '.' ∉ cs) :
    splitLastDot cs = none := by
  induction cs with
  | nil => rfl
  | cons c rest ih =>
    simp only [List.mem_cons, not_or] at h
    unfold splitLastDot
    rw [ih h.2]
    exact if_neg (fun hc => h.1 hc.symm)

theorem stemOf_of_no_dot {s : String} (h : '.' ∉ s.toList) : stemOf s = s := by
  unfold stemOf
  rw [splitLastDot_of_no_dot h]

theorem withExtension_append (p : Path) (c ext : String) :
    withExtension (p ++ [c]) ext = p ++ [stemOf c ++ "." ++ ext] := by
  induction p with
  | nil => rfl
  | cons a p2 ih =>
    cases p2 with
    | nil => rfl
    | cons b p3 =>
      show a :: withExtension ((b :: p3) ++ [c]) ext = _
      rw [ih]
      rfl

theorem str_dot_append (s : String) : s ++ "." ++ "toml" = s ++ ".toml" := by
  cases s with
  | mk l =>
    apply String.ext
    show (l ++ ".".data) ++ "toml".data = l ++ ".toml".data
    rw [List.append_assoc]
    rfl

/-- `FS.lookupPatch` finds a freshly consed patch file. -/
theorem lookupPatch_cons_self (fs : FS) (p : Path) (c : PatchContent) :
    FS.lookupPatch { fs with patchFiles := (p, c) :: fs.patchFiles } p
      = some c := by
  simp [FS.lookupPatch, List.find?]

/-! ### Claim theorems -/

/-- C1, counterexample: a first `add_patch` of `demoPatch` succeeds, and a
second `add_patch` of the very same patch — same ref, identical stored
content — fails with a `WriteFile` error instead of succeeding
idempotently. -/
theorem add_patch_readd_not_idempotent :
    add_patch demoStore emptyFS demoPatch = .ok fsWithDemo
    ∧ add_patch demoStore fsWithDemo demoPatch
        = .error (.writeFile (demoStore.patchPath "r1")) := by
  constructor <;> rfl

/-- C1, amended: after `add_patch(p)` succeeds, a second `add_patch(p)` on
the resulting filesystem always fails with `WriteFile` at the patch's path
(the create-new open refuses the existing file even though its content is
identical); no idempotent re-add exists. -/
theorem add_patch_second_add_fails (s : SyncFolderStore) (fs fs1 : FS)
    (p : Patch) (h : add_patch s fs p = .ok fs1) :
    add_patch s fs1 p = .error (.writeFile (s.patchPath p.patch_ref)) := by
  cases hl : fs.lookupPatch (s.patchPath p.patch_ref) with
  | some c => simp [add_patch, hl] at h
  | none =>
    simp only [add_patch, hl, Except.ok.injEq] at h
    subst h
    simp [add_patch, lookupPatch_cons_self]

/-- C1 witness: the amended theorem applied at the concrete store. -/
theorem add_patch_second_add_fails_witness :
    add_patch demoStore fsWithDemo demoPatch
      = .error (.writeFile (demoStore.patchPath demoPatch.patch_ref)) :=
  add_patch_second_add_fails demoStore emptyFS fsWithDemo demoPatch rfl

/-- C2, counterexample: the patch file named `r1.toml` holds a body that
deserializes to `tamperedPatch`, whose `patch_ref` is not `"r1"`; `get_patch`
for `"r1"` returns that content successfully instead of failing with a
corruption error. -/
theorem get_patch_tampered_returned_silently :
    get_patch demoStore fsTampered "r1" = .ok tamperedPatch
    ∧ tamperedPatch.patch_ref ≠ "r1" := by
  exact ⟨rfl, by decide⟩

/-- C2, amended: `get_patch` returns whatever the file at the ref's path
deserializes to — it never compares the stored `patch_ref` with the requested
ref, so a mutated body that still deserializes is returned silently; only a
missing file or a deserialization failure produces an error. -/
theorem get_patch_no_integrity_check (s : SyncFolderStore) (fs : FS)
    (r : String) (p : Patch)
    (h : fs.lookupPatch (s.patchPath r) = some (.patchToml p)) :
    get_patch s fs r = .ok p := by
  simp [get_patch, h, dePatchContent]

/-- C2 witness: the amended theorem applied at the tampered filesystem. -/
theorem get_patch_no_integrity_check_witness :
    fsTampered.lookupPatch (demoStore.patchPath "r1")
        = some (.patchToml tamperedPatch)
    ∧ get_patch demoStore fsTampered "r1" = .ok tamperedPatch :=
  ⟨rfl, get_patch_no_integrity_check demoStore fsTampered "r1" tamperedPatch
    rfl⟩

/-- C3: evaluation at the failing input.  The meta file on disk holds the
(longer) serialization of `bigMeta`; `save_meta` of `smallMeta` succeeds, but
because the file is opened with write+create and never truncated, the tail of
the old content survives, and the following `get_meta` fails to deserialize
instead of returning `smallMeta`. -/
theorem save_meta_no_truncate_bug :
    (save_meta demoStore fsOldMeta smallMeta).bind
        (fun fs1 => get_meta demoStore fs1)
      = .error (.deserializeMeta "dev") := by
  rfl

/-- C4: whenever a file already exists at the patch's path — whatever its
content — `add_patch` fails with a `WriteFile` error at that path rather than
overwriting it, because the file is opened with `create_new`. -/
theorem add_patch_create_only (s : SyncFolderStore) (fs : FS) (p : Patch)
    (h : (fs.lookupPatch (s.patchPath p.patch_ref)).isSome) :
    add_patch s fs p = .error (.writeFile (s.patchPath p.patch_ref)) := by
  cases hl : fs.lookupPatch (s.patchPath p.patch_ref) with
  | some c => simp [add_patch, hl]
  | none => rw [hl] at h; exact absurd h (by simp)

/-- C4 witness: `add_patch_create_only` at the concrete occupied store. -/
theorem add_patch_create_only_witness :
    (fsWithDemo.lookupPatch (demoStore.patchPath demoPatch.patch_ref)).isSome
    ∧ add_patch demoStore fsWithDemo demoPatch
        = .error (.writeFile (demoStore.patchPath demoPatch.patch_ref)) :=
  ⟨rfl, add_patch_create_only demoStore fsWithDemo demoPatch rfl⟩

/-- C5: `flatten` is a function of the patch set — two in-memory patch
collections containing the same patches in any arrival orders reduce to the
same Timesheet or the same Conflict list. -/
theorem flatten_deterministic (l1 l2 : List Patch) (h : l1.Perm l2) :
    flatten l1 = flatten l2 := by
  unfold flatten
  rw [List.eq_of_perm_of_sorted
    ((List.perm_insertionSort patchLe l1).trans
      (h.trans (List.perm_insertionSort patchLe l2).symm))
    (List.sorted_insertionSort patchLe l1)
    (List.sorted_insertionSort patchLe l2)]

/-- C5 witness: two arrival orders of the same two patches flatten
identically. -/
theorem flatten_deterministic_witness :
    ([demoPatch, tamperedPatch] : List Patch).Perm [tamperedPatch, demoPatch]
    ∧ flatten [demoPatch, tamperedPatch] = flatten [tamperedPatch, demoPatch] :=
  ⟨by decide,
    flatten_deterministic [demoPatch, tamperedPatch]
      [tamperedPatch, demoPatch] (by decide)⟩

/-- C6: when no meta file exists for the device, `get_meta` returns the empty
`Meta::new()` value rather than any error. -/
theorem get_meta_absent_gives_empty (s : SyncFolderStore) (fs : FS)
    (h : fs.lookupMeta s.meta_file_path = none) :
    get_meta s fs = .ok Meta.new := by
  simp [get_meta, h]

/-- C6 witness: `get_meta` on the empty filesystem. -/
theorem get_meta_absent_gives_empty_witness :
    emptyFS.lookupMeta demoStore.meta_file_path = none
    ∧ get_meta demoStore emptyFS = .ok Meta.new :=
  ⟨rfl, get_meta_absent_gives_empty demoStore emptyFS rfl⟩

/-- C7: every `SyncFolderStoreError` variant carries its context — either the
offending path (`ReadFile`/`WriteFile`) or the offending device id / patch
ref (the serialize/deserialize variants); no variant is a bare message. -/
theorem store_error_carries_context (e : SyncFolderStoreError) :
    e.pathOf.isSome ∨ e.identOf.isSome := by
  cases e <;> simp [SyncFolderStoreError.pathOf, SyncFolderStoreError.identOf]

/-- C8, counterexample: for the device id `"a.b"`, `with_extension` replaces
the text after the last dot instead of appending, so the meta file path is
`<root>/meta/a.toml`, not `<root>/meta/a.b.toml`. -/
theorem meta_file_path_dot_device :
    (SyncFolderStore.new ["r"] "a.b").meta_file_path = ["r", "meta", "a.toml"]
    ∧ (SyncFolderStore.new ["r"] "a.b").meta_file_path
        ≠ ["r", "meta", "a.b.toml"] := by
  constructor
  · rfl
  · decide

/-- C8, amended: provided the device id and the patch ref contain no `'.'`
(true of the hex content hashes used as refs), the store reads and writes the
device's meta exactly at `<root>/meta/<device_id>.toml` and each patch
exactly at `<root>/patches/<patch_ref>.toml`; a component containing a dot
instead has everything after its last dot replaced by `toml`. -/
theorem store_paths_layout (root : Path) (dev ref : String)
    (hd : '.' ∉ dev.toList) (hr : '.' ∉ ref.toList) :
    (SyncFolderStore.new root dev).meta_file_path
        = root ++ ["meta", dev ++ ".toml"]
    ∧ (SyncFolderStore.new root dev).patchPath ref
        = root ++ ["patches", ref ++ ".toml"] := by
  constructor
  · show withExtension ((root ++ ["meta"]) ++ [dev]) "toml" = _
    rw [withExtension_append, stemOf_of_no_dot hd, str_dot_append,
      List.append_assoc]
    rfl
  · show withExtension ((root ++ ["patches"]) ++ [ref]) "toml" = _
    rw [withExtension_append, stemOf_of_no_dot hr, str_dot_append,
      List.append_assoc]
    rfl

/-- C8 witness: the layout theorem at a concrete dot-free store. -/
theorem store_paths_layout_witness :
    ('.' ∉ "dev".toList ∧ '.' ∉ "r1".toList)
    ∧ demoStore.meta_file_path = ["root", "meta", "dev.toml"]
    ∧ demoStore.patchPath "r1" = ["root", "patches", "r1.toml"] :=
  ⟨⟨by decide, by decide⟩,
    store_paths_layout ["root"] "dev" "r1" (by decide) (by decide)⟩

/-- C9: `should_init` sets the `init` flag to `true` and ignores its boolean
argument entirely: for any store, `should_init b` equals `should_init true`
for every `b`. -/
theorem should_init_ignores_argument (s : SyncFolderStore) (b : Bool) :
    (s.should_init b).init = true ∧ s.should_init b = s.should_init true :=
  ⟨rfl, rfl⟩

/-- C10: `time_input::parse` tries the three interpretations in order —
full `%Y-%m-%dT%H:%M:%S` datetime, then a date (full or `--m-d` with the
current year) at `00:00:00`, then an `H:M` time (seconds forced to zero) on
the current date from `c.now()` — returning the first success, and returns
`Err(())` exactly when all three fail. -/
theorem time_input_parse_order (c : TimeInput.TimeCtx) (t : String) :
    (∀ dt, TimeInput.parse_datetime t = some dt
      → TimeInput.parse c t = .ok dt)
    ∧ (TimeInput.parse_datetime t = none →
        ∀ d, TimeInput.parse_date c t = .ok d →
          TimeInput.parse c t = .ok ⟨d.year, d.month, d.day, 0, 0, 0⟩)
    ∧ (∀ tv, TimeInput.parse_time t = some tv → tv.second = 0)
    ∧ (TimeInput.parse_datetime t = none →
        TimeInput.parse_date c t = .fail →
        ∀ tv, TimeInput.parse_time t = some tv →
          TimeInput.parse c t
            = .ok ⟨c.now.year, c.now.month, c.now.day,
                tv.hour, tv.minute, tv.second⟩)
    ∧ (TimeInput.parse_datetime t = none →
        TimeInput.parse_date c t = .fail →
        TimeInput.parse_time t = none →
        TimeInput.parse c t = .err)
    ∧ (TimeInput.parse c t = .err →
        TimeInput.parse_datetime t = none
        ∧ TimeInput.parse_date c t = .fail
        ∧ TimeInput.parse_time t = none) := by
  refine ⟨?_, ?_, ?_, ?_, ?_, ?_⟩
  · intro dt h
    simp [TimeInput.parse, h]
  · intro h1 d h2
    simp [TimeInput.parse, h1, h2]
  · intro tv h
    have ht : ∀ a b tv2, TimeInput.toNaiveTime a b = some tv2 →
        tv2.second = 0 := by
      intro a b tv2 hv
      unfold TimeInput.toNaiveTime at hv
      split at hv
      · injection hv with h2
        subst h2
        rfl
      · exact Option.noConfusion hv
    unfold TimeInput.parse_time at h
    cases hm : TimeInput.hourMinuteP t.toList with
    | none =>
      rw [hm] at h
      exact Option.noConfusion h
    | some v =>
      rw [hm] at h
      exact ht v.1 v.2 tv h
  · intro h1 h2 tv h3
    simp [TimeInput.parse, h1, h2, h3]
  · intro h1 h2 h3
    simp [TimeInput.parse, h1, h2, h3]
  · intro h
    cases h1 : TimeInput.parse_datetime t with
    | some dt => simp [TimeInput.parse, h1] at h
    | none =>
      cases h2 : TimeInput.parse_date c t with
      | ok d => simp [TimeInput.parse, h1, h2] at h
      | panics => simp [TimeInput.parse, h1, h2] at h
      | fail =>
        cases h3 : TimeInput.parse_time t with
        | some tv => simp [TimeInput.parse, h1, h2, h3] at h
        | none => exact ⟨rfl, rfl, rfl⟩

/-- C10 witness: the order theorem applied to the `--m-d` vector from the
source's unit tests. -/
theorem time_input_parse_order_witness :
    TimeInput.parse_datetime "--7-6" = none
    ∧ TimeInput.parse ctx2019 "--7-6" = .ok ⟨2019, 7, 6, 0, 0, 0⟩ :=
  ⟨by decide,
    (time_input_parse_order ctx2019 "--7-6").2.1 (by decide)
      ⟨2019, 7, 6⟩ (by decide)⟩

end Augr
